import Mathlib

/-!
Verification of the niche-artist discovery engine of the nichefy backend
(backend/functions/niche_logic.py).

The external services (Spotify catalog via spotipy, Perplexity suggestion
source) are modelled as an oracle structure Env whose fields give, for every
query, the fixed response of the service.  All functions below are direct
translations of the Python source:

  * search_spotify_for_artists  models _search_spotify_for_artists: for each
    candidate name it tries three search-query variants in order and stops for
    that name at the first variant that yields an accepted hit; a hit is
    accepted when it is not the excluded seed, not already recorded, its name
    fuzzily matches the candidate and its popularity lies inside the band.
  * find_niche_cousins models the engine: token validation, seed fetch with
    the 401 and Unauthorized error distinction, strategy 1 (suggestion query,
    matcher, partition into niche and bridges, guarded recursion into the
    cheapest bridge), strategy 2 (track-context fallback), strategy 3 (genre
    search last resort), final ascending sort and truncation to twice
    min_length.
  * recommend_niche_for_top_artists models the batch runner with its
    last-write-wins mapping keyed on the niche artist identifier.

The model is instrumented: a FindOut value records, besides the returned list
or raised error, the progress events emitted through the callback (with the
depth of the invocation that emitted them), the depth of every engine
invocation performed, and every query sent to the suggestion source.  These
traces model the observable side effects of the Python code and decide the
claims about recursion depth, progress reporting and the fallback strategy.
-/

namespace Nichefy

/-- An ArtistRecord as returned by the catalog: identifier, display name,
popularity in 0..100 and genre tags.  Image and external link play no role in
the algorithm and are omitted. -/
structure Artist where
  id : String
  name : String
  popularity : Nat
  genres : List String
deriving DecidableEq

/-- A progress event pushed into the callback.  The Python payload carries a
message and counters that do not influence control flow; the model keeps the
event type tag and records the depth of the engine invocation that emitted
the event. -/
structure Event where
  tag : String
  atDepth : Nat
deriving DecidableEq

/-- Oracle for the two external services.  Each field fixes the response of
the service to a given request, so one Env value describes one joint
behaviour of catalog and suggestion source. -/
structure Env where
  /-- sp.artist: fetch one artist record by identifier, may fail. -/
  getArtist : String → Except String Artist
  /-- sp.search with type artist: the item list for a query string, may fail.
  The query string determines the response, covering both the name searches
  of the matcher (limit 10) and the genre searches (limit 50). -/
  search : String → Except String (List Artist)
  /-- sp.artist_top_tracks: the top track names of an artist, may fail. -/
  topTracks : String → Except String (List String)
  /-- Models _query_perplexity_for_related_artists: suggested artist names
  for a prompt context and genre hints.  The Python helper never raises; every
  failure is turned into an empty list. -/
  suggest : String → List String → List String
  /-- sp.current_user_top_artists: the top artists of the current user. -/
  userTopArtists : Except String (List Artist)

/-- Boolean test that the pattern occurs as a contiguous run at the start of
the character list. -/
def charsStartWith : List Char → List Char → Bool
  | _, [] => true
  | [], _ :: _ => false
  | c :: cs, d :: ds => c == d && charsStartWith cs ds

/-- Boolean test that the pattern occurs as a contiguous run somewhere in the
character list. -/
def charsContain : List Char → List Char → Bool
  | [], sub => sub.isEmpty
  | c :: cs, sub => charsStartWith (c :: cs) sub || charsContain cs sub

/-- The Python substring test needle in hay. -/
def strContains (hay needle : String) : Bool :=
  charsContain hay.toList needle.toList

/-- Python str.lower, computed on the character list. -/
def lowerStr (s : String) : String :=
  ⟨s.toList.map Char.toLower⟩

/-- Python str.strip: drop leading and trailing whitespace. -/
def trimStr (s : String) : String :=
  ⟨((s.toList.dropWhile Char.isWhitespace).reverse.dropWhile Char.isWhitespace).reverse⟩

/-- The fuzzy name match of the matcher: case-insensitive equality or
substring containment in either direction. -/
def nameMatches (cand spot : String) : Bool :=
  let c := lowerStr cand
  let s := lowerStr spot
  c == s || strContains s c || strContains c s

/-- The seed exclusion of the matcher.  Python tests seed_artist_id and
artist id equality, so a None or empty seed id excludes nothing. -/
def isExcluded (ex : Option String) (id : String) : Bool :=
  match ex with
  | some e => e != "" && id == e
  | none => false

/-- Ascending popularity order on artist records. -/
def popLe (a b : Artist) : Prop := a.popularity ≤ b.popularity

instance : DecidableRel popLe := fun a b => Nat.decLe a.popularity b.popularity

instance : IsTotal Artist popLe := ⟨fun a b => Nat.le_total a.popularity b.popularity⟩

instance : IsTrans Artist popLe := ⟨fun _ _ _ h1 h2 => Nat.le_trans h1 h2⟩

/-- The Python list.sort with the popularity key: a stable ascending sort. -/
def sortPop (l : List Artist) : List Artist := l.insertionSort popLe

/-- The three search-query variants the matcher tries for one candidate name,
in their source order: quoted artist search, bare text, suffix qualified. -/
def searchQueries (n : String) : List String :=
  ["artist:\"" ++ n ++ "\"", n, n ++ " artist"]

/-- Inner loop of the matcher over the hits of one search query.  Walks the
hit list, skipping the excluded seed, already recorded identifiers and hits
whose name does not match; an in-band match is appended, its identifier is
recorded and the matched flag becomes true (the scan continues to collect
further matches of the same query). -/
def scanHits (cand : String) (ex : Option String) (minP maxP : Nat) :
    List Artist → List Artist → List String → Bool → List Artist × List String × Bool
  | [], found, seen, m => (found, seen, m)
  | a :: rest, found, seen, m =>
    if isExcluded ex a.id then scanHits cand ex minP maxP rest found seen m
    else if a.id ∈ seen then scanHits cand ex minP maxP rest found seen m
    else if nameMatches cand a.name then
      if minP ≤ a.popularity ∧ a.popularity ≤ maxP then
        scanHits cand ex minP maxP rest (found ++ [a]) (a.id :: seen) true
      else scanHits cand ex minP maxP rest found seen m
    else scanHits cand ex minP maxP rest found seen m

/-- Middle loop of the matcher over the query variants of one candidate name:
a failed search is swallowed and the next variant tried; after a successful
search the hits are scanned and, if the name matched, later variants are not
tried. -/
def tryQueries (env : Env) (cand : String) (ex : Option String) (minP maxP : Nat) :
    List String → List Artist → List String → List Artist × List String
  | [], found, seen => (found, seen)
  | q :: qs, found, seen =>
    match env.search q with
    | .error _ => tryQueries env cand ex minP maxP qs found seen
    | .ok hits =>
      let s := scanHits cand ex minP maxP hits found seen false
      if s.2.2 then (s.1, s.2.1) else tryQueries env cand ex minP maxP qs s.1 s.2.1

/-- Outer loop of the matcher over the candidate names.  Names that are empty
or shorter than two characters after trimming are skipped; the recorded
identifier set is shared across all names of one matcher call. -/
def searchGo (v : String → List String) (env : Env) (ex : Option String) (minP maxP : Nat) :
    List String → List Artist → List String → List Artist
  | [], found, _ => found
  | n :: rest, found, seen =>
    if (trimStr n).length < 2 then searchGo v env ex minP maxP rest found seen
    else
      let r := tryQueries env (trimStr n) ex minP maxP (v (trimStr n)) found seen
      searchGo v env ex minP maxP rest r.1 r.2

/-- The matcher with the variant builder as a parameter, to state how the
result depends on the order in which the query variants are tried. -/
def searchSpotifyWith (v : String → List String) (env : Env) (names : List String)
    (ex : Option String) (minP maxP : Nat) : List Artist :=
  searchGo v env ex minP maxP names [] []

/-- Model of _search_spotify_for_artists: the matcher with the source order
of the three query variants. -/
def search_spotify_for_artists (env : Env) (names : List String)
    (ex : Option String) (minP maxP : Nat) : List Artist :=
  searchSpotifyWith searchQueries env names ex minP maxP

/-- The mutable search state of one engine invocation: the seen identifier
set (pre-seeded with the seed id) and the accumulated niche finds. -/
structure EngSt where
  seen : List String
  niche : List Artist
deriving DecidableEq

/-- The instrumented outcome of one engine invocation: the returned list or
raised error, the progress events pushed into the callback, the depth of
every engine invocation performed (own call included), and every query sent
to the suggestion source as context and genre hints. -/
structure FindOut where
  res : Except String (List Artist)
  events : List Event
  calls : List Nat
  suggQueries : List (String × List String)

/-- Merge loop used after the recursive call and after the fallback matcher
run: append every artist whose identifier is not yet seen, recording it. -/
def mergeUnseen : List Artist → EngSt → EngSt
  | [], st => st
  | a :: rest, st =>
    if a.id ∈ st.seen then mergeUnseen rest st
    else mergeUnseen rest ⟨a.id :: st.seen, st.niche ++ [a]⟩

/-- The partition loop of strategy 1: walk the matched artists, skip already
seen identifiers, record every observed identifier, and split the rest into
niche (popularity inside the band) and potential bridges (popularity
strictly above the band).  Returns the grown seen set, the niche list and
the bridge list. -/
def partitionFound (minP maxP : Nat) : List Artist → List String →
    List String × List Artist × List Artist
  | [], seen => (seen, [], [])
  | a :: rest, seen =>
    if a.id ∈ seen then partitionFound minP maxP rest seen
    else
      let r := partitionFound minP maxP rest (a.id :: seen)
      if minP ≤ a.popularity ∧ a.popularity ≤ maxP then (r.1, a :: r.2.1, r.2.2)
      else if maxP < a.popularity then (r.1, r.2.1, a :: r.2.2)
      else r

/-- The genre-search append loop of strategy 3: add each unseen artist, and
after every iteration stop once the accumulator holds twice min_length. -/
def addGenreArtists (cap : Nat) : List Artist → EngSt → EngSt
  | [], st => st
  | a :: rest, st =>
    let st' := if a.id ∈ st.seen then st else ⟨a.id :: st.seen, st.niche ++ [a]⟩
    if cap ≤ st'.niche.length then st' else addGenreArtists cap rest st'

/-- The loop of strategy 3 over the first genres: a failed genre search is
swallowed and the next genre tried; after a successful genre the loop stops
once min_length finds have accumulated. -/
def genreLoop (env : Env) (seedId : String) (minP maxP minLength : Nat) :
    List String → EngSt → EngSt
  | [], st => st
  | g :: gs, st =>
    match env.search ("genre:\"" ++ g ++ "\"") with
    | .error _ => genreLoop env seedId minP maxP minLength gs st
    | .ok artists =>
      let st' := addGenreArtists (minLength * 2)
        (sortPop (artists.filter fun a =>
          decide (minP ≤ a.popularity) && decide (a.popularity ≤ maxP) &&
          a.id != seedId && !(st.seen.contains a.id))) st
      if minLength ≤ st'.niche.length then st' else genreLoop env seedId minP maxP minLength gs st'

/-- Strategy 1 without the recursive step: query the suggestion source with
the seed name and genres, run the matcher on the suggested names, and
partition the matches.  Returns the search state, the potential bridges and
the progress events emitted (only when matches were found and a callback is
present). -/
def strategy1Run (env : Env) (seed : Artist) (seedId : String) (minP maxP depth : Nat)
    (cb : Bool) : EngSt × List Artist × List Event :=
  let suggestions := env.suggest seed.name seed.genres
  if suggestions.isEmpty then (⟨[seedId], []⟩, [], [])
  else
    let found := search_spotify_for_artists env suggestions (some seedId) minP maxP
    if found.isEmpty then (⟨[seedId], []⟩, [], [])
    else
      let p := partitionFound minP maxP found [seedId]
      (⟨p.1, p.2.1⟩, p.2.2,
        if cb then [⟨"searching_spotify", depth⟩, ⟨"artists_found", depth⟩] else [])

/-- The prompt enrichment of strategy 2: up to three of the top track names,
or nothing when the track list is empty. -/
def tracksContext (trackNames : List String) : String :=
  if trackNames.isEmpty then ""
  else " known for songs like " ++ String.intercalate ", " (trackNames.take 3)

/-- Strategy 2, the track-context fallback: runs only when still short of
min_length.  A failing top-tracks lookup is caught and the whole strategy is
skipped.  On success the suggestion source is queried with the seed name
extended by the track context, and new unseen matches are merged.  Returns
the new state and the suggestion queries issued. -/
def strategy2Run (env : Env) (seed : Artist) (seedId : String) (minP maxP minLength : Nat)
    (st : EngSt) : EngSt × List (String × List String) :=
  if st.niche.length < minLength then
    match env.topTracks seedId with
    | .error _ => (st, [])
    | .ok tracks =>
      let queryContext := seed.name ++ tracksContext (tracks.take 5)
      let sugg := env.suggest queryContext seed.genres
      if sugg.isEmpty then (st, [(queryContext, seed.genres)])
      else (mergeUnseen (search_spotify_for_artists env sugg (some seedId) minP maxP) st,
            [(queryContext, seed.genres)])
  else (st, [])

/-- Strategy 3, the genre-search last resort: runs only when still short of
min_length and the seed has genre tags; walks the first two genres. -/
def strategy3Run (env : Env) (seed : Artist) (seedId : String) (minP maxP minLength : Nat)
    (st : EngSt) : EngSt :=
  if st.niche.length < minLength ∧ seed.genres ≠ [] then
    genreLoop env seedId minP maxP minLength (seed.genres.take 2) st
  else st

/-- Merge step after the guarded recursive call: on success the deeper finds
are merged skipping seen identifiers, on failure the error is swallowed; in
both cases the sub-call traces are appended. -/
def afterSub (s1 : EngSt × List Artist × List Event) (sub : FindOut) :
    EngSt × List Event × List Nat × List (String × List String) :=
  match sub.res with
  | .ok deeper => (mergeUnseen deeper s1.1, s1.2.2 ++ sub.events, sub.calls, sub.suggQueries)
  | .error _ => (s1.1, s1.2.2 ++ sub.events, sub.calls, sub.suggQueries)

/-- Default artist record used for the head of the sorted bridge list; the
recursion guard guarantees the list is nonempty so the default is never
produced. -/
def dummyArtist : Artist := ⟨"", "", 0, []⟩

/-- Final phase of the engine, applied to the state after the recursion
step: run strategies 2 and 3, sort the accumulator ascending by popularity,
truncate to twice min_length and assemble the instrumented outcome. -/
def finishFrom (env : Env) (seed : Artist) (seedId : String)
    (minP maxP minLength depth : Nat)
    (ar : EngSt × List Event × List Nat × List (String × List String)) : FindOut :=
  let s2 := strategy2Run env seed seedId minP maxP minLength ar.1
  let st3 := strategy3Run env seed seedId minP maxP minLength s2.1
  ⟨.ok ((sortPop st3.niche).take (minLength * 2)), ar.2.1, depth :: ar.2.2.1,
   (seed.name, seed.genres) :: (ar.2.2.2 ++ s2.2)⟩

/-- find_niche_cousins of the source.  Parameters follow the Python
signature: seed artist id, access token, maximum popularity, current depth,
minimum number of finds, minimum popularity, and whether a progress callback
was supplied.  The recursive call uses the least popular bridge as new seed,
depth plus one, the remaining need as min_length, and no callback. -/
def find_niche_cousins (env : Env) (seedId token : String)
    (maxPop depth minLength minPop : Nat) (cb : Bool) : FindOut :=
  if token = "" then
    ⟨.error "Access token is required but was not provided", [], [depth], []⟩
  else if trimStr token = "" then
    ⟨.error "Invalid access token format", [], [depth], []⟩
  else
    match env.getArtist seedId with
    | .error msg =>
      if strContains msg "401" || strContains msg "Unauthorized" then
        ⟨.error "Spotify access token expired or invalid. Please log in again.", [], [depth], []⟩
      else ⟨.ok [], [], [depth], []⟩
    | .ok seed =>
      finishFrom env seed seedId minPop maxPop minLength depth
        (if hrec : (strategy1Run env seed seedId minPop maxPop depth cb).1.niche.length < minLength ∧
            depth < 2 ∧ (strategy1Run env seed seedId minPop maxPop depth cb).2.1 ≠ [] then
          afterSub (strategy1Run env seed seedId minPop maxPop depth cb)
            (find_niche_cousins env
              ((sortPop (strategy1Run env seed seedId minPop maxPop depth cb).2.1).headD dummyArtist).id
              token maxPop (depth + 1)
              (minLength - (strategy1Run env seed seedId minPop maxPop depth cb).1.niche.length)
              minPop false)
        else ((strategy1Run env seed seedId minPop maxPop depth cb).1,
              (strategy1Run env seed seedId minPop maxPop depth cb).2.2, [], []))
termination_by 2 - depth
decreasing_by exact Nat.sub_succ_lt_self 2 depth hrec.2.1

/-- The engine without the recursive step: provably equal to
find_niche_cousins because the matcher never hands an above-band artist to
the partition, so the bridge list is always empty and the recursion guard
never fires. -/
def findNR (env : Env) (seedId token : String)
    (maxPop depth minLength minPop : Nat) (cb : Bool) : FindOut :=
  if token = "" then
    ⟨.error "Access token is required but was not provided", [], [depth], []⟩
  else if trimStr token = "" then
    ⟨.error "Invalid access token format", [], [depth], []⟩
  else
    match env.getArtist seedId with
    | .error msg =>
      if strContains msg "401" || strContains msg "Unauthorized" then
        ⟨.error "Spotify access token expired or invalid. Please log in again.", [], [depth], []⟩
      else ⟨.ok [], [], [depth], []⟩
    | .ok seed =>
      finishFrom env seed seedId minPop maxPop minLength depth
        ((strategy1Run env seed seedId minPop maxPop depth cb).1,
         (strategy1Run env seed seedId minPop maxPop depth cb).2.2, [], [])

/-- The accumulated niche finds of a successful engine run, before the final
sort and truncation: the state after strategies 1 to 3. -/
def nicheAccum (env : Env) (seed : Artist) (seedId : String)
    (maxPop depth minLength minPop : Nat) (cb : Bool) : List Artist :=
  (strategy3Run env seed seedId minPop maxPop minLength
    (strategy2Run env seed seedId minPop maxPop minLength
      (strategy1Run env seed seedId minPop maxPop depth cb).1).1).niche

/-- Correctness invariant of the engine state: the seed id is recorded, the
accumulated identifiers are pairwise distinct, every accumulated identifier
is recorded, and the seed never accumulates. -/
def InvSt (seedId : String) (st : EngSt) : Prop :=
  seedId ∈ st.seen ∧ (st.niche.map (fun a => a.id)).Nodup ∧
  (∀ a ∈ st.niche, a.id ∈ st.seen) ∧ (∀ a ∈ st.niche, a.id ≠ seedId)

/-- One value of the batch-runner mapping: the niche artist record and the
seed (original) artist whose discovery run produced it. -/
structure NicheEntry where
  niche_artist : Artist
  original_artist : Artist
deriving DecidableEq

/-- Python dict assignment on a mapping kept as an insertion-ordered list of
key-value pairs: an existing key keeps its position and gets the new value, a
new key is appended. -/
def upsert (m : List (String × NicheEntry)) (k : String) (v : NicheEntry) :
    List (String × NicheEntry) :=
  if m.any (fun p => p.1 == k) then
    m.map (fun p => if p.1 == k then (k, v) else p)
  else m ++ [(k, v)]

/-- Lookup in the mapping model: the value of the first pair with the key. -/
def lookupKey (m : List (String × NicheEntry)) (k : String) : Option NicheEntry :=
  (m.find? (fun p => p.1 == k)).map Prod.snd

/-- A sequence of dict assignments applied left to right. -/
def foldAssign (m : List (String × NicheEntry)) (l : List (String × NicheEntry)) :
    List (String × NicheEntry) :=
  l.foldl (fun acc p => upsert acc p.1 p.2) m

/-- The niche finds one seed contributes in the batch runner (the empty list
when the engine call failed, used only under a hypothesis that it did not). -/
def nichesOf (env : Env) (token : String) (maxPop minPop : Nat) (artist : Artist) :
    List Artist :=
  match (find_niche_cousins env artist.id token maxPop 0 3 minPop false).res with
  | .ok l => l
  | .error _ => []

/-- The flat sequence of dict assignments the batch runner performs, in seed
processing order: for each seed, one assignment per niche find, keyed by the
niche identifier and valued with the niche record and the seed. -/
def batchAssignments (env : Env) (token : String) (maxPop minPop : Nat)
    (tops : List Artist) : List (String × NicheEntry) :=
  tops.flatMap (fun artist =>
    (nichesOf env token maxPop minPop artist).map (fun n => (n.id, ⟨n, artist⟩)))

/-- The seed loop of the batch runner: each engine failure propagates, each
success writes its finds into the mapping (later writes win). -/
def recGo (env : Env) (token : String) (maxPop minPop : Nat) :
    List Artist → List (String × NicheEntry) → Except String (List (String × NicheEntry))
  | [], m => .ok m
  | artist :: rest, m =>
    match (find_niche_cousins env artist.id token maxPop 0 3 minPop false).res with
    | .error e => .error e
    | .ok niches =>
      recGo env token maxPop minPop rest
        (niches.foldl (fun acc n => upsert acc n.id ⟨n, artist⟩) m)

/-- recommend_niche_for_top_artists of the source: fetch the top artists of
the user (failure propagates) and fan the engine out over them with
min_length three and depth zero. -/
def recommend_niche_for_top_artists (env : Env) (token : String) (maxPop minPop : Nat) :
    Except String (List (String × NicheEntry)) :=
  match env.userTopArtists with
  | .error e => .error e
  | .ok tops => recGo env token maxPop minPop tops []

/-! Concrete environments used for counterexamples and witnesses. -/

/-- A niche artist with popularity 20, inside the band 15 to 40. -/
def annA : Artist := ⟨"a1", "Ann", 20, []⟩

/-- A seed artist with popularity 90 and no genre tags. -/
def seedW : Artist := ⟨"sw", "SeedW", 90, []⟩

/-- Environment for the happy path: the suggestion source proposes one name
and the catalog resolves it to one in-band artist. -/
def envW : Env where
  getArtist := fun i => if i = "sw" then .ok seedW else .error "404 Not Found"
  search := fun _ => .ok [annA]
  topTracks := fun _ => .ok []
  suggest := fun _ _ => ["Ann"]
  userTopArtists := .ok []

/-- Environment where every seed fetch fails with an error that is not an
authorization failure. -/
def envE : Env where
  getArtist := fun _ => .error "404 Not Found"
  search := fun _ => .ok []
  topTracks := fun _ => .error "x"
  suggest := fun _ _ => []
  userTopArtists := .ok []

/-- The seed of the bridge scenario. -/
def seedC3 : Artist := ⟨"seed1", "Seedy", 90, []⟩

/-- An artist whose popularity 90 lies strictly above the band 15 to 40 and
whose name equals the suggested name: the spec expects it to reach the
partition as a bridge. -/
def bridgeB : Artist := ⟨"b1", "Bridgey", 90, []⟩

/-- Environment of the bridge scenario: the suggestion source proposes the
bridge name and every catalog search returns the above-band bridge artist. -/
def envC3 : Env where
  getArtist := fun i => if i = "seed1" then .ok seedC3 else .error "404 Not Found"
  search := fun _ => .ok [bridgeB]
  topTracks := fun _ => .ok []
  suggest := fun _ _ => ["Bridgey"]
  userTopArtists := .ok []

/-- Environment where every seed fetch fails with an authorization error. -/
def env401 : Env where
  getArtist := fun _ => .error "401 Unauthorized"
  search := fun _ => .ok []
  topTracks := fun _ => .error "x"
  suggest := fun _ _ => []
  userTopArtists := .ok []

/-- The seed of the track-failure scenario. -/
def seed7 : Artist := ⟨"s7", "Seven", 90, []⟩

/-- Environment where the top-tracks lookup fails while the engine is still
short of min_length after the primary strategy. -/
def env7 : Env where
  getArtist := fun i => if i = "s7" then .ok seed7 else .error "404 Not Found"
  search := fun _ => .ok []
  topTracks := fun _ => .error "boom"
  suggest := fun _ _ => ["Ann"]
  userTopArtists := .ok []

/-- A second in-band artist with the same display name as annA but another
identifier, to make the matcher result depend on the query variant order. -/
def annB : Artist := ⟨"y1", "Ann", 20, []⟩

/-- Environment whose catalog answers the quoted variant with one artist and
the suffix-qualified variant with a different artist. -/
def envC8 : Env where
  getArtist := fun _ => .error "404 Not Found"
  search := fun q =>
    if q = "artist:\"Ann\"" then .ok [annA]
    else if q = "Ann artist" then .ok [annB]
    else .ok []
  topTracks := fun _ => .ok []
  suggest := fun _ _ => []
  userTopArtists := .ok []

/-- Environment whose catalog gives the same response to every query, used
to witness the order independence of the matcher under equal responses. -/
def envC : Env where
  getArtist := fun _ => .error "404 Not Found"
  search := fun _ => .ok [annA]
  topTracks := fun _ => .ok []
  suggest := fun _ _ => []
  userTopArtists := .ok []

/-! Basic lemmas about the stable popularity sort. -/

lemma sortPop_perm (l : List Artist) : (sortPop l).Perm l :=
  List.perm_insertionSort popLe l

lemma mem_sortPop {a : Artist} {l : List Artist} : a ∈ sortPop l ↔ a ∈ l :=
  (sortPop_perm l).mem_iff

lemma sortPop_sorted (l : List Artist) : (sortPop l).Sorted popLe :=
  List.sorted_insertionSort popLe l

/-! The matcher only returns artists inside the popularity band. -/

lemma scanHits_inB (cand : String) (ex : Option String) (minP maxP : Nat) :
    ∀ (hits found : List Artist) (seen : List String) (m : Bool),
      (∀ a ∈ found, minP ≤ a.popularity ∧ a.popularity ≤ maxP) →
      ∀ a ∈ (scanHits cand ex minP maxP hits found seen m).1,
        minP ≤ a.popularity ∧ a.popularity ≤ maxP := by
  intro hits
  induction hits with
  | nil =>
    intro found seen m h a ha
    exact h a ha
  | cons b rest ih =>
    intro found seen m h a ha
    rw [scanHits] at ha
    split at ha
    · exact ih _ _ _ h a ha
    · split at ha
      · exact ih _ _ _ h a ha
      · split at ha
        · split at ha
          next hband =>
            refine ih _ _ _ ?_ a ha
            intro x hx
            rcases List.mem_append.mp hx with hx | hx
            · exact h x hx
            · rcases List.mem_singleton.mp hx with rfl
              exact hband
          next => exact ih _ _ _ h a ha
        · exact ih _ _ _ h a ha

lemma tryQueries_inB (env : Env) (cand : String) (ex : Option String) (minP maxP : Nat) :
    ∀ (qs : List String) (found : List Artist) (seen : List String),
      (∀ a ∈ found, minP ≤ a.popularity ∧ a.popularity ≤ maxP) →
      ∀ a ∈ (tryQueries env cand ex minP maxP qs found seen).1,
        minP ≤ a.popularity ∧ a.popularity ≤ maxP := by
  intro qs
  induction qs with
  | nil =>
    intro found seen h a ha
    exact h a ha
  | cons q rest ih =>
    intro found seen h a ha
    rw [tryQueries] at ha
    cases hsq : env.search q with
    | error e =>
      rw [hsq] at ha
      exact ih _ _ h a ha
    | ok hits =>
      rw [hsq] at ha
      simp only at ha
      split at ha
      · exact scanHits_inB cand ex minP maxP hits found seen false h a ha
      · exact ih _ _ (scanHits_inB cand ex minP maxP hits found seen false h) a ha

lemma searchGo_inB (v : String → List String) (env : Env) (ex : Option String)
    (minP maxP : Nat) :
    ∀ (names : List String) (found : List Artist) (seen : List String),
      (∀ a ∈ found, minP ≤ a.popularity ∧ a.popularity ≤ maxP) →
      ∀ a ∈ searchGo v env ex minP maxP names found seen,
        minP ≤ a.popularity ∧ a.popularity ≤ maxP := by
  intro names
  induction names with
  | nil =>
    intro found seen h a ha
    exact h a ha
  | cons n rest ih =>
    intro found seen h a ha
    rw [searchGo] at ha
    split at ha
    · exact ih _ _ h a ha
    · exact ih _ _ (tryQueries_inB env (trimStr n) ex minP maxP (v (trimStr n)) found seen h) a ha

lemma search_inBand (env : Env) (names : List String) (ex : Option String)
    (minP maxP : Nat) :
    ∀ a ∈ search_spotify_for_artists env names ex minP maxP,
      minP ≤ a.popularity ∧ a.popularity ≤ maxP := by
  intro a ha
  exact searchGo_inB searchQueries env ex minP maxP names [] [] (by intro x hx; cases hx) a ha

/-! The partition step of strategy 1. -/

lemma partitionFound_bridges_nil (minP maxP : Nat) :
    ∀ (found : List Artist) (seen : List String),
      (∀ a ∈ found, minP ≤ a.popularity ∧ a.popularity ≤ maxP) →
      (partitionFound minP maxP found seen).2.2 = [] := by
  intro found
  induction found with
  | nil => intro seen _; rfl
  | cons a rest ih =>
    intro seen h
    rw [partitionFound]
    split
    · exact ih seen (fun x hx => h x (List.mem_cons_of_mem a hx))
    · rw [if_pos (h a (List.mem_cons_self a rest))]
      exact ih _ (fun x hx => h x (List.mem_cons_of_mem a hx))

lemma partitionFound_niche_inBand (minP maxP : Nat) :
    ∀ (found : List Artist) (seen : List String),
      ∀ a ∈ (partitionFound minP maxP found seen).2.1,
        minP ≤ a.popularity ∧ a.popularity ≤ maxP := by
  intro found
  induction found with
  | nil => intro seen a ha; cases ha
  | cons b rest ih =>
    intro seen a ha
    rw [partitionFound] at ha
    split at ha
    · exact ih seen a ha
    · split at ha
      next hband =>
        rcases List.mem_cons.mp ha with rfl | ha
        · exact hband
        · exact ih _ a ha
      next =>
        split at ha
        · exact ih _ a ha
        · exact ih _ a ha

lemma partitionFound_spec (minP maxP : Nat) :
    ∀ (found : List Artist) (seen : List String),
      (∀ x ∈ seen, x ∈ (partitionFound minP maxP found seen).1) ∧
      (∀ a ∈ (partitionFound minP maxP found seen).2.1,
        a.id ∈ (partitionFound minP maxP found seen).1 ∧ a.id ∉ seen) ∧
      ((partitionFound minP maxP found seen).2.1.map (fun a => a.id)).Nodup := by
  intro found
  induction found with
  | nil =>
    intro seen
    exact ⟨fun x hx => hx, fun a ha => absurd ha (by simp [partitionFound]), by simp [partitionFound]⟩
  | cons b rest ih =>
    intro seen
    rw [partitionFound]
    split
    next hmem =>
      exact ih seen
    next hmem =>
      obtain ⟨ih1, ih2, ih3⟩ := ih (b.id :: seen)
      split
      next hband =>
        refine ⟨fun x hx => ih1 x (List.mem_cons_of_mem b.id hx), ?_, ?_⟩
        · intro a ha
          rcases List.mem_cons.mp ha with rfl | ha
          · exact ⟨ih1 a.id (List.mem_cons_self a.id seen), hmem⟩
          · exact ⟨(ih2 a ha).1, fun hc => (ih2 a ha).2 (List.mem_cons_of_mem b.id hc)⟩
        · refine List.nodup_cons.mpr ⟨?_, ih3⟩
          intro hc
          rcases List.mem_map.mp hc with ⟨a, ha, hid⟩
          exact (ih2 a ha).2 (hid ▸ List.mem_cons_self b.id seen)
      next =>
        split
        · exact ⟨fun x hx => ih1 x (List.mem_cons_of_mem b.id hx),
            fun a ha => ⟨(ih2 a ha).1, fun hc => (ih2 a ha).2 (List.mem_cons_of_mem b.id hc)⟩, ih3⟩
        · exact ⟨fun x hx => ih1 x (List.mem_cons_of_mem b.id hx),
            fun a ha => ⟨(ih2 a ha).1, fun hc => (ih2 a ha).2 (List.mem_cons_of_mem b.id hc)⟩, ih3⟩

/-! The bridge list of strategy 1 is always empty: the matcher pre-filters
to the popularity band, so no above-band artist ever reaches the partition.
This is the defect behind the dead recursive branch of the engine. -/

lemma strategy1Run_bridges_nil (env : Env) (seed : Artist) (seedId : String)
    (minP maxP depth : Nat) (cb : Bool) :
    (strategy1Run env seed seedId minP maxP depth cb).2.1 = [] := by
  rw [strategy1Run]
  by_cases hs : (env.suggest seed.name seed.genres).isEmpty
  · simp only [if_pos hs]
  · simp only [if_neg hs]
    by_cases hf : (search_spotify_for_artists env (env.suggest seed.name seed.genres)
        (some seedId) minP maxP).isEmpty
    · simp only [if_pos hf]
    · simp only [if_neg hf]
      exact partitionFound_bridges_nil minP maxP _ [seedId]
        (search_inBand env _ (some seedId) minP maxP)

/-- The engine never takes its recursive branch: find_niche_cousins is equal
to the recursion-free findNR.  Every later theorem about the engine goes
through this equation. -/
theorem find_eq_findNR (env : Env) (seedId token : String)
    (maxPop depth minLength minPop : Nat) (cb : Bool) :
    find_niche_cousins env seedId token maxPop depth minLength minPop cb
      = findNR env seedId token maxPop depth minLength minPop cb := by
  rw [find_niche_cousins]
  unfold findNR
  by_cases h1 : token = ""
  · simp only [if_pos h1]
  · simp only [if_neg h1]
    by_cases h2 : trimStr token = ""
    · simp only [if_pos h2]
    · simp only [if_neg h2]
      cases hA : env.getArtist seedId with
      | error msg => rfl
      | ok seed =>
        dsimp only
        rw [dif_neg (fun hcon => hcon.2.2
          (strategy1Run_bridges_nil env seed seedId minPop maxPop depth cb))]

/-! Preservation of the engine-state invariant by every merge step. -/

lemma InvSt_extend (seedId : String) (st : EngSt) (a : Artist) (h : InvSt seedId st)
    (hna : a.id ∉ st.seen) : InvSt seedId ⟨a.id :: st.seen, st.niche ++ [a]⟩ := by
  obtain ⟨h1, h2, h3, h4⟩ := h
  refine ⟨List.mem_cons_of_mem _ h1, ?_, ?_, ?_⟩
  · rw [List.map_append]
    refine List.Nodup.append h2 (List.nodup_singleton a.id) ?_
    intro x hx hx'
    rcases List.mem_singleton.mp hx' with rfl
    rcases List.mem_map.mp hx with ⟨b, hb, hbid⟩
    have hbid' : b.id = a.id := hbid
    exact hna (hbid' ▸ h3 b hb)
  · intro x hx
    rcases List.mem_append.mp hx with hx | hx
    · exact List.mem_cons_of_mem _ (h3 x hx)
    · rcases List.mem_singleton.mp hx with rfl
      exact List.mem_cons_self _ _
  · intro x hx
    rcases List.mem_append.mp hx with hx | hx
    · exact h4 x hx
    · rcases List.mem_singleton.mp hx with rfl
      exact fun heq => hna (heq ▸ h1)

lemma mergeUnseen_inv (seedId : String) :
    ∀ (l : List Artist) (st : EngSt), InvSt seedId st → InvSt seedId (mergeUnseen l st) := by
  intro l
  induction l with
  | nil => intro st h; exact h
  | cons a rest ih =>
    intro st h
    rw [mergeUnseen]
    split
    · exact ih st h
    next hna => exact ih _ (InvSt_extend seedId st a h hna)

lemma mergeUnseen_mem :
    ∀ (l : List Artist) (st : EngSt) (a : Artist),
      a ∈ (mergeUnseen l st).niche → a ∈ st.niche ∨ a ∈ l := by
  intro l
  induction l with
  | nil => intro st a ha; exact Or.inl ha
  | cons b rest ih =>
    intro st a ha
    rw [mergeUnseen] at ha
    split at ha
    · rcases ih st a ha with h | h
      · exact Or.inl h
      · exact Or.inr (List.mem_cons_of_mem b h)
    · rcases ih _ a ha with h | h
      · rcases List.mem_append.mp h with h | h
        · exact Or.inl h
        · rw [List.mem_singleton.mp h]
          exact Or.inr (List.mem_cons_self b rest)
      · exact Or.inr (List.mem_cons_of_mem b h)

lemma addGenreArtists_inv (seedId : String) (cap : Nat) :
    ∀ (l : List Artist) (st : EngSt), InvSt seedId st →
      InvSt seedId (addGenreArtists cap l st) := by
  intro l
  induction l with
  | nil => intro st h; exact h
  | cons a rest ih =>
    intro st h
    rw [addGenreArtists]
    by_cases hmem : a.id ∈ st.seen
    · simp only [if_pos hmem]
      split
      · exact h
      · exact ih st h
    · simp only [if_neg hmem]
      have h' := InvSt_extend seedId st a h hmem
      split
      · exact h'
      · exact ih _ h'

lemma addGenreArtists_mem (cap : Nat) :
    ∀ (l : List Artist) (st : EngSt) (a : Artist),
      a ∈ (addGenreArtists cap l st).niche → a ∈ st.niche ∨ a ∈ l := by
  intro l
  induction l with
  | nil => intro st a ha; exact Or.inl ha
  | cons b rest ih =>
    intro st a ha
    rw [addGenreArtists] at ha
    by_cases hmem : b.id ∈ st.seen
    · simp only [if_pos hmem] at ha
      split at ha
      · exact Or.inl ha
      · rcases ih st a ha with h | h
        · exact Or.inl h
        · exact Or.inr (List.mem_cons_of_mem b h)
    · simp only [if_neg hmem] at ha
      split at ha
      · rcases List.mem_append.mp ha with h | h
        · exact Or.inl h
        · rw [List.mem_singleton.mp h]
          exact Or.inr (List.mem_cons_self b rest)
      · rcases ih _ a ha with h | h
        · rcases List.mem_append.mp h with h | h
          · exact Or.inl h
          · rw [List.mem_singleton.mp h]
            exact Or.inr (List.mem_cons_self b rest)
        · exact Or.inr (List.mem_cons_of_mem b h)

lemma genreLoop_inv (env : Env) (seedId : String) (minP maxP minLength : Nat) :
    ∀ (gs : List String) (st : EngSt), InvSt seedId st →
      InvSt seedId (genreLoop env seedId minP maxP minLength gs st) := by
  intro gs
  induction gs with
  | nil => intro st h; exact h
  | cons g rest ih =>
    intro st h
    rw [genreLoop]
    cases env.search ("genre:\"" ++ g ++ "\"") with
    | error e => exact ih st h
    | ok artists =>
      dsimp only
      split
      · exact addGenreArtists_inv seedId (minLength * 2) _ st h
      · exact ih _ (addGenreArtists_inv seedId (minLength * 2) _ st h)

lemma genreLoop_inB (env : Env) (seedId : String) (minP maxP minLength : Nat) :
    ∀ (gs : List String) (st : EngSt),
      (∀ a ∈ st.niche, minP ≤ a.popularity ∧ a.popularity ≤ maxP) →
      ∀ a ∈ (genreLoop env seedId minP maxP minLength gs st).niche,
        minP ≤ a.popularity ∧ a.popularity ≤ maxP := by
  intro gs
  induction gs with
  | nil => intro st h a ha; exact h a ha
  | cons g rest ih =>
    intro st h
    rw [genreLoop]
    cases env.search ("genre:\"" ++ g ++ "\"") with
    | error e => exact ih st h
    | ok artists =>
      dsimp only
      have h' : ∀ a ∈ (addGenreArtists (minLength * 2)
          (sortPop (artists.filter fun a =>
            decide (minP ≤ a.popularity) && decide (a.popularity ≤ maxP) &&
            a.id != seedId && !(st.seen.contains a.id))) st).niche,
          minP ≤ a.popularity ∧ a.popularity ≤ maxP := by
        intro a ha
        rcases addGenreArtists_mem (minLength * 2) _ st a ha with hm | hm
        · exact h a hm
        · have := (List.mem_filter.mp (mem_sortPop.mp hm)).2
          simp only [Bool.and_eq_true, decide_eq_true_eq] at this
          exact ⟨this.1.1.1, this.1.1.2⟩
      split
      · exact h'
      · exact ih _ h'

lemma strategy1Run_inv (env : Env) (seed : Artist) (seedId : String)
    (minP maxP depth : Nat) (cb : Bool) :
    InvSt seedId (strategy1Run env seed seedId minP maxP depth cb).1 := by
  rw [strategy1Run]
  by_cases hs : (env.suggest seed.name seed.genres).isEmpty
  · simp only [if_pos hs]
    exact ⟨List.mem_singleton_self seedId, List.nodup_nil, fun a ha => absurd ha (by simp),
      fun a ha => absurd ha (by simp)⟩
  · simp only [if_neg hs]
    by_cases hf : (search_spotify_for_artists env (env.suggest seed.name seed.genres)
        (some seedId) minP maxP).isEmpty
    · simp only [if_pos hf]
      exact ⟨List.mem_singleton_self seedId, List.nodup_nil, fun a ha => absurd ha (by simp),
        fun a ha => absurd ha (by simp)⟩
    · simp only [if_neg hf]
      obtain ⟨sp1, sp2, sp3⟩ := partitionFound_spec minP maxP
        (search_spotify_for_artists env (env.suggest seed.name seed.genres)
          (some seedId) minP maxP) [seedId]
      refine ⟨sp1 seedId (List.mem_singleton_self seedId), sp3, ?_, ?_⟩
      · intro a ha
        exact (sp2 a ha).1
      · intro a ha heq
        exact (sp2 a ha).2 (heq ▸ List.mem_singleton_self seedId)

lemma strategy1Run_inB (env : Env) (seed : Artist) (seedId : String)
    (minP maxP depth : Nat) (cb : Bool) :
    ∀ a ∈ (strategy1Run env seed seedId minP maxP depth cb).1.niche,
      minP ≤ a.popularity ∧ a.popularity ≤ maxP := by
  rw [strategy1Run]
  by_cases hs : (env.suggest seed.name seed.genres).isEmpty
  · simp only [if_pos hs]
    intro a ha
    exact absurd ha (by simp)
  · simp only [if_neg hs]
    by_cases hf : (search_spotify_for_artists env (env.suggest seed.name seed.genres)
        (some seedId) minP maxP).isEmpty
    · simp only [if_pos hf]
      intro a ha
      exact absurd ha (by simp)
    · simp only [if_neg hf]
      exact partitionFound_niche_inBand minP maxP _ [seedId]

lemma strategy2Run_inv (env : Env) (seed : Artist) (seedId : String)
    (minP maxP minLength : Nat) (st : EngSt) (h : InvSt seedId st) :
    InvSt seedId (strategy2Run env seed seedId minP maxP minLength st).1 := by
  rw [strategy2Run]
  split
  · cases env.topTracks seedId with
    | error e => exact h
    | ok tracks =>
      dsimp only
      split
      · exact h
      · exact mergeUnseen_inv seedId _ st h
  · exact h

lemma strategy2Run_inB (env : Env) (seed : Artist) (seedId : String)
    (minP maxP minLength : Nat) (st : EngSt)
    (h : ∀ a ∈ st.niche, minP ≤ a.popularity ∧ a.popularity ≤ maxP) :
    ∀ a ∈ (strategy2Run env seed seedId minP maxP minLength st).1.niche,
      minP ≤ a.popularity ∧ a.popularity ≤ maxP := by
  rw [strategy2Run]
  split
  · cases env.topTracks seedId with
    | error e => exact h
    | ok tracks =>
      dsimp only
      split
      · exact h
      · intro a ha
        rcases mergeUnseen_mem _ st a ha with hm | hm
        · exact h a hm
        · exact search_inBand env _ (some seedId) minP maxP a hm
  · exact h

lemma strategy3Run_inv (env : Env) (seed : Artist) (seedId : String)
    (minP maxP minLength : Nat) (st : EngSt) (h : InvSt seedId st) :
    InvSt seedId (strategy3Run env seed seedId minP maxP minLength st) := by
  rw [strategy3Run]
  split
  · exact genreLoop_inv env seedId minP maxP minLength _ st h
  · exact h

lemma strategy3Run_inB (env : Env) (seed : Artist) (seedId : String)
    (minP maxP minLength : Nat) (st : EngSt)
    (h : ∀ a ∈ st.niche, minP ≤ a.popularity ∧ a.popularity ≤ maxP) :
    ∀ a ∈ (strategy3Run env seed seedId minP maxP minLength st).niche,
      minP ≤ a.popularity ∧ a.popularity ≤ maxP := by
  rw [strategy3Run]
  split
  · exact genreLoop_inB env seedId minP maxP minLength _ st h
  · exact h

/-! Shape of a successful engine result. -/

lemma nicheAccum_inB (env : Env) (seed : Artist) (seedId : String)
    (maxPop depth minLength minPop : Nat) (cb : Bool) :
    ∀ a ∈ nicheAccum env seed seedId maxPop depth minLength minPop cb,
      minPop ≤ a.popularity ∧ a.popularity ≤ maxPop := by
  unfold nicheAccum
  exact strategy3Run_inB env seed seedId minPop maxPop minLength _
    (strategy2Run_inB env seed seedId minPop maxPop minLength _
      (strategy1Run_inB env seed seedId minPop maxPop depth cb))

lemma nicheAccum_ids (env : Env) (seed : Artist) (seedId : String)
    (maxPop depth minLength minPop : Nat) (cb : Bool) :
    ((nicheAccum env seed seedId maxPop depth minLength minPop cb).map
      (fun a => a.id)).Nodup ∧
    ∀ a ∈ nicheAccum env seed seedId maxPop depth minLength minPop cb, a.id ≠ seedId := by
  unfold nicheAccum
  have h := strategy3Run_inv env seed seedId minPop maxPop minLength _
    (strategy2Run_inv env seed seedId minPop maxPop minLength _
      (strategy1Run_inv env seed seedId minPop maxPop depth cb))
  exact ⟨h.2.1, h.2.2.2⟩

lemma findNR_res_cases (env : Env) (seedId token : String)
    (maxPop depth minLength minPop : Nat) (cb : Bool) (l : List Artist)
    (h : (findNR env seedId token maxPop depth minLength minPop cb).res = .ok l) :
    l = [] ∨ ∃ seed, env.getArtist seedId = .ok seed ∧
      l = (sortPop (nicheAccum env seed seedId maxPop depth minLength minPop cb)).take
            (minLength * 2) := by
  unfold findNR at h
  by_cases h1 : token = ""
  · rw [if_pos h1] at h
    simp at h
  · rw [if_neg h1] at h
    by_cases h2 : trimStr token = ""
    · rw [if_pos h2] at h
      simp at h
    · rw [if_neg h2] at h
      cases hA : env.getArtist seedId with
      | error msg =>
        rw [hA] at h
        dsimp only at h
        split at h
        · simp at h
        · left
          injection h with h
          exact h.symm
      | ok seed =>
        rw [hA] at h
        dsimp only at h
        unfold finishFrom at h
        dsimp only at h
        injection h with h
        exact Or.inr ⟨seed, rfl, h.symm⟩

/-- C1: for all valid popularity bands (min at most max, both within 0 to
100), every artist record in the list returned by find_niche_cousins has
popularity within the band. -/
theorem c1_band (env : Env) (seedId token : String)
    (maxPop minPop depth minLength : Nat) (cb : Bool) (l : List Artist)
    (hband : minPop ≤ maxPop) (hmax : maxPop ≤ 100)
    (h : (find_niche_cousins env seedId token maxPop depth minLength minPop cb).res = .ok l) :
    ∀ a ∈ l, minPop ≤ a.popularity ∧ a.popularity ≤ maxPop := by
  rw [find_eq_findNR] at h
  rcases findNR_res_cases env seedId token maxPop depth minLength minPop cb l h with
    rfl | ⟨seed, hA, rfl⟩
  · intro a ha
    cases ha
  · intro a ha
    exact nicheAccum_inB env seed seedId maxPop depth minLength minPop cb a
      (mem_sortPop.mp (List.take_subset _ _ ha))

/-- Witness for C1: a concrete run whose result is a single in-band artist;
the band hypotheses and the success hypothesis are discharged. -/
theorem c1_witness :
    15 ≤ 40 ∧ 40 ≤ 100 ∧
    (find_niche_cousins envW "sw" "tok" 40 0 5 15 true).res = .ok [annA] ∧
    (15 ≤ annA.popularity ∧ annA.popularity ≤ 40) := by
  have hres : (find_niche_cousins envW "sw" "tok" 40 0 5 15 true).res = .ok [annA] := by
    rw [find_eq_findNR]
    rfl
  exact ⟨by decide, by decide, hres,
    c1_band envW "sw" "tok" 40 15 0 5 true [annA] (by decide) (by decide) hres annA
      (List.mem_singleton_self annA)⟩

/-- C2: no artist identifier appears twice in a result of
find_niche_cousins, and the seed identifier never appears in its own
result. -/
theorem c2_unique (env : Env) (seedId token : String)
    (maxPop depth minLength minPop : Nat) (cb : Bool) (l : List Artist)
    (h : (find_niche_cousins env seedId token maxPop depth minLength minPop cb).res = .ok l) :
    (l.map (fun a => a.id)).Nodup ∧ seedId ∉ l.map (fun a => a.id) := by
  rw [find_eq_findNR] at h
  rcases findNR_res_cases env seedId token maxPop depth minLength minPop cb l h with
    rfl | ⟨seed, hA, rfl⟩
  · exact ⟨List.nodup_nil, by simp⟩
  · obtain ⟨hnd, hns⟩ := nicheAccum_ids env seed seedId maxPop depth minLength minPop cb
    constructor
    · have hperm := (sortPop_perm
        (nicheAccum env seed seedId maxPop depth minLength minPop cb)).map (fun a => a.id)
      have hnd2 := hperm.nodup_iff.mpr hnd
      have hsub := (List.take_sublist (minLength * 2)
        (sortPop (nicheAccum env seed seedId maxPop depth minLength minPop cb))).map
          (fun a => a.id)
      exact List.Nodup.sublist hsub hnd2
    · intro hc
      rcases List.mem_map.mp hc with ⟨a, ha, hid⟩
      exact hns a (mem_sortPop.mp (List.take_subset _ _ ha)) hid

/-- Witness for C2: the success hypothesis discharged on the concrete run. -/
theorem c2_witness :
    (find_niche_cousins envW "sw" "tok" 40 0 5 15 true).res = .ok [annA] ∧
    ([annA].map (fun a => a.id)).Nodup ∧ "sw" ∉ [annA].map (fun a => a.id) := by
  have hres : (find_niche_cousins envW "sw" "tok" 40 0 5 15 true).res = .ok [annA] := by
    rw [find_eq_findNR]
    rfl
  obtain ⟨hd, hs⟩ := c2_unique envW "sw" "tok" 40 0 5 15 true [annA] hres
  exact ⟨hres, hd, hs⟩

/-! Trace lemmas: calls and events of the engine. -/

lemma findNR_calls (env : Env) (seedId token : String)
    (maxPop depth minLength minPop : Nat) (cb : Bool) :
    (findNR env seedId token maxPop depth minLength minPop cb).calls = [depth] := by
  unfold findNR
  by_cases h1 : token = ""
  · rw [if_pos h1]
  · rw [if_neg h1]
    by_cases h2 : trimStr token = ""
    · rw [if_pos h2]
    · rw [if_neg h2]
      cases hA : env.getArtist seedId with
      | error msg =>
        dsimp only
        split <;> rfl
      | ok seed => rfl

lemma strategy1Run_events (env : Env) (seed : Artist) (seedId : String)
    (minP maxP depth : Nat) (cb : Bool) :
    ∀ e ∈ (strategy1Run env seed seedId minP maxP depth cb).2.2, e.atDepth = depth := by
  rw [strategy1Run]
  by_cases hs : (env.suggest seed.name seed.genres).isEmpty
  · simp only [if_pos hs]
    intro e he
    exact absurd he (by simp)
  · simp only [if_neg hs]
    by_cases hf : (search_spotify_for_artists env (env.suggest seed.name seed.genres)
        (some seedId) minP maxP).isEmpty
    · simp only [if_pos hf]
      intro e he
      exact absurd he (by simp)
    · simp only [if_neg hf]
      intro e he
      split at he
      · rcases List.mem_cons.mp he with rfl | he
        · rfl
        · rw [List.mem_singleton.mp he]
      · exact absurd he (by simp)

lemma strategy1Run_events_nocb (env : Env) (seed : Artist) (seedId : String)
    (minP maxP depth : Nat) :
    (strategy1Run env seed seedId minP maxP depth false).2.2 = [] := by
  rw [strategy1Run]
  by_cases hs : (env.suggest seed.name seed.genres).isEmpty
  · simp only [if_pos hs]
  · simp only [if_neg hs]
    by_cases hf : (search_spotify_for_artists env (env.suggest seed.name seed.genres)
        (some seedId) minP maxP).isEmpty
    · simp only [if_pos hf]
    · simp only [if_neg hf]
      rfl

/-- C4: recursion depth never exceeds two.  The calls trace records the depth
argument of every engine invocation performed during a discovery call; when
the call starts at a depth of at most two, every recorded invocation depth is
at most two (the recursion guard requires depth below two and passes depth
plus one, and in fact the dead bridge branch means no recursive call ever
happens). -/
theorem c4_depth_bound (env : Env) (seedId token : String)
    (maxPop depth minLength minPop : Nat) (cb : Bool) (hd : depth ≤ 2) :
    ∀ d ∈ (find_niche_cousins env seedId token maxPop depth minLength minPop cb).calls,
      d ≤ 2 := by
  intro d hdmem
  rw [find_eq_findNR, findNR_calls] at hdmem
  rw [List.mem_singleton.mp hdmem]
  exact hd

/-- Witness for C4: the depth bound and membership hypotheses discharged on
a concrete depth zero invocation. -/
theorem c4_witness :
    0 ∈ (find_niche_cousins envE "s" "tok" 40 0 5 15 false).calls ∧ (0 : Nat) ≤ 2 := by
  have hmem : 0 ∈ (find_niche_cousins envE "s" "tok" 40 0 5 15 false).calls := by
    rw [find_eq_findNR, findNR_calls]
    exact List.mem_singleton_self 0
  exact ⟨hmem, c4_depth_bound envE "s" "tok" 40 0 5 15 false (by decide) 0 hmem⟩

/-- C10: the recursive self-invocation omits the progress callback, so all
progress events of a discovery call are emitted at the depth of the top
invocation, and an invocation without a callback emits no event at all. -/
theorem c10_no_sub_events (env : Env) (seedId token : String)
    (maxPop depth minLength minPop : Nat) (cb : Bool) :
    (∀ e ∈ (find_niche_cousins env seedId token maxPop depth minLength minPop cb).events,
      e.atDepth = depth) ∧
    (find_niche_cousins env seedId token maxPop depth minLength minPop false).events = [] := by
  constructor
  · rw [find_eq_findNR]
    unfold findNR
    by_cases h1 : token = ""
    · rw [if_pos h1]
      intro e he
      exact absurd he (by simp)
    · rw [if_neg h1]
      by_cases h2 : trimStr token = ""
      · rw [if_pos h2]
        intro e he
        exact absurd he (by simp)
      · rw [if_neg h2]
        cases hA : env.getArtist seedId with
        | error msg =>
          dsimp only
          split
          · intro e he
            exact absurd he (by simp)
          · intro e he
            exact absurd he (by simp)
        | ok seed =>
          intro e he
          exact strategy1Run_events env seed seedId minPop maxPop depth cb e he
  · rw [find_eq_findNR]
    unfold findNR
    by_cases h1 : token = ""
    · rw [if_pos h1]
    · rw [if_neg h1]
      by_cases h2 : trimStr token = ""
      · rw [if_pos h2]
      · rw [if_neg h2]
        cases hA : env.getArtist seedId with
        | error msg =>
          dsimp only
          split <;> rfl
        | ok seed =>
          exact strategy1Run_events_nocb env seed seedId minPop maxPop depth

/-- Witness for C10: a concrete run with a callback emits an event, and its
depth tag is the depth of the top invocation. -/
theorem c10_witness :
    (⟨"searching_spotify", 0⟩ : Event) ∈
      (find_niche_cousins envW "sw" "tok" 40 0 5 15 true).events ∧
    (⟨"searching_spotify", 0⟩ : Event).atDepth = 0 := by
  have hmem : (⟨"searching_spotify", 0⟩ : Event) ∈
      (find_niche_cousins envW "sw" "tok" 40 0 5 15 true).events := by
    rw [find_eq_findNR]
    decide
  exact ⟨hmem,
    (c10_no_sub_events envW "sw" "tok" 40 0 5 15 true).1 ⟨"searching_spotify", 0⟩ hmem⟩

/-- C5: the value returned by a successful call is the accumulated niche
finds sorted ascending by popularity and truncated to at most twice
min_length records. -/
theorem c5_sorted_truncated (env : Env) (seedId token : String)
    (maxPop depth minLength minPop : Nat) (cb : Bool) (seed : Artist)
    (h1 : token ≠ "") (h2 : trimStr token ≠ "")
    (hA : env.getArtist seedId = .ok seed) :
    (find_niche_cousins env seedId token maxPop depth minLength minPop cb).res
      = .ok ((sortPop (nicheAccum env seed seedId maxPop depth minLength minPop cb)).take
          (minLength * 2)) ∧
    ((sortPop (nicheAccum env seed seedId maxPop depth minLength minPop cb)).take
      (minLength * 2)).Sorted popLe ∧
    ((sortPop (nicheAccum env seed seedId maxPop depth minLength minPop cb)).take
      (minLength * 2)).length ≤ minLength * 2 := by
  refine ⟨?_, ?_, ?_⟩
  · rw [find_eq_findNR]
    unfold findNR
    rw [if_neg h1, if_neg h2, hA]
    rfl
  · exact List.Pairwise.sublist (List.take_sublist _ _) (sortPop_sorted _)
  · rw [List.length_take]
    exact min_le_left _ _

/-- Witness for C5: the token and seed hypotheses discharged on the concrete
happy path run. -/
theorem c5_witness :
    (find_niche_cousins envW "sw" "tok" 40 0 5 15 true).res
      = .ok ((sortPop (nicheAccum envW seedW "sw" 40 0 5 15 true)).take (5 * 2)) :=
  (c5_sorted_truncated envW "sw" "tok" 40 0 5 15 true seedW (by decide) (by decide) rfl).1

/-- Counterexample to C6 as stated: a seed fetch that fails with an error
which is not an authorization failure is swallowed and the call returns the
normal empty list success instead of propagating an error. -/
theorem c6_counterexample :
    envE.getArtist "seed1" = .error "404 Not Found" ∧
    (find_niche_cousins envE "seed1" "tok" 40 0 5 15 false).res = .ok [] := by
  refine ⟨rfl, ?_⟩
  rw [find_eq_findNR]
  rfl

/-- C6 amended: a seed fetch failure whose message contains 401 or
Unauthorized raises the distinct re-authentication error, which propagates;
every other seed fetch failure is swallowed into the normal empty-list
return. -/
theorem c6_auth_distinction (env : Env) (seedId token : String)
    (maxPop depth minLength minPop : Nat) (cb : Bool) (msg : String)
    (h1 : token ≠ "") (h2 : trimStr token ≠ "")
    (hA : env.getArtist seedId = .error msg) :
    (find_niche_cousins env seedId token maxPop depth minLength minPop cb).res
      = if strContains msg "401" || strContains msg "Unauthorized" then
          .error "Spotify access token expired or invalid. Please log in again."
        else .ok [] := by
  rw [find_eq_findNR]
  unfold findNR
  rw [if_neg h1, if_neg h2, hA]
  dsimp only
  by_cases hc : (strContains msg "401" || strContains msg "Unauthorized") = true
  · rw [if_pos hc, if_pos hc]
  · rw [if_neg hc, if_neg hc]

/-- Witness for C6 amended: on an authorization failure the distinct error
is raised. -/
theorem c6_witness :
    (find_niche_cousins env401 "s" "tok" 40 0 5 15 false).res
      = .error "Spotify access token expired or invalid. Please log in again." := by
  have h := c6_auth_distinction env401 "s" "tok" 40 0 5 15 false "401 Unauthorized"
    (by decide) (by decide) rfl
  rw [h]
  rfl

/-- Counterexample to C7 as stated: the top-tracks lookup fails, the run is
short of min_length, and yet the suggestion source receives only the one
primary query; no fallback query with the seed name alone is issued. -/
theorem c7_counterexample :
    env7.topTracks "s7" = .error "boom" ∧
    (find_niche_cousins env7 "s7" "tok" 40 0 5 15 false).res = .ok [] ∧
    (find_niche_cousins env7 "s7" "tok" 40 0 5 15 false).suggQueries
      = [("Seven", [])] := by
  refine ⟨rfl, ?_, ?_⟩ <;> (rw [find_eq_findNR]; rfl)

/-- C7 amended: the track-context fallback query is issued exactly when the
accumulator is short of min_length after the recursion step and the
top-tracks lookup succeeds, with the seed name extended by up to three track
titles as context; when the top-tracks lookup fails the whole fallback is
skipped and only the primary query is ever sent. -/
theorem c7_track_fallback (env : Env) (seedId token : String)
    (maxPop depth minLength minPop : Nat) (cb : Bool) (seed : Artist)
    (h1 : token ≠ "") (h2 : trimStr token ≠ "")
    (hA : env.getArtist seedId = .ok seed) :
    (find_niche_cousins env seedId token maxPop depth minLength minPop cb).suggQueries
      = (seed.name, seed.genres) ::
        (if (strategy1Run env seed seedId minPop maxPop depth cb).1.niche.length < minLength
        then
          match env.topTracks seedId with
          | .ok tracks => [(seed.name ++ tracksContext (tracks.take 5), seed.genres)]
          | .error _ => []
        else []) := by
  rw [find_eq_findNR]
  unfold findNR
  rw [if_neg h1, if_neg h2, hA]
  dsimp only
  unfold finishFrom
  dsimp only
  rw [List.nil_append]
  congr 1
  unfold strategy2Run
  split
  · cases htt : env.topTracks seedId with
    | error e => rfl
    | ok tracks =>
      dsimp only
      split <;> rfl
  · rfl

/-- Witness for C7 amended: on the happy path the fallback runs (short of
min_length, track lookup succeeds with no tracks) and the trace holds the
primary query followed by the fallback query with the bare seed name. -/
theorem c7_witness :
    (find_niche_cousins envW "sw" "tok" 40 0 5 15 true).suggQueries
      = [("SeedW", ([] : List String)), ("SeedW", [])] := by
  have h := c7_track_fallback envW "sw" "tok" 40 0 5 15 true seedW (by decide) (by decide) rfl
  rw [h]
  rfl

/-- C3 evaluation at the failing input: the suggestion source proposes a
name that the catalog resolves to an artist with popularity 90, strictly
above the band 15 to 40 and matching by name, yet the matcher returns
nothing, so no bridge ever reaches the partition, the engine performs no
recursive call (the calls trace holds only depth zero) and returns the empty
list. -/
theorem c3_dead_bridge :
    search_spotify_for_artists envC3 ["Bridgey"] (some "seed1") 15 40 = [] ∧
    nameMatches "Bridgey" bridgeB.name = true ∧
    40 < bridgeB.popularity ∧
    find_niche_cousins envC3 "seed1" "tok" 40 0 5 15 false
      = ⟨.ok [], [], [0], [("Seedy", []), ("Seedy", [])]⟩ := by
  refine ⟨rfl, rfl, by decide, ?_⟩
  rw [find_eq_findNR]
  rfl

/-! Order sensitivity of the matcher in the query variants. -/

lemma scanHits_no_match (cand : String) (ex : Option String) (minP maxP : Nat) :
    ∀ (hits found : List Artist) (seen : List String) (m : Bool),
      (scanHits cand ex minP maxP hits found seen m).2.2 = false →
      scanHits cand ex minP maxP hits found seen m = (found, seen, m) ∧ m = false := by
  intro hits
  induction hits with
  | nil =>
    intro found seen m h
    exact ⟨rfl, h⟩
  | cons a rest ih =>
    intro found seen m h
    rw [scanHits] at h ⊢
    by_cases h1 : isExcluded ex a.id = true
    · rw [if_pos h1] at h ⊢
      exact ih _ _ _ h
    · rw [if_neg h1] at h ⊢
      by_cases h2 : a.id ∈ seen
      · rw [if_pos h2] at h ⊢
        exact ih _ _ _ h
      · rw [if_neg h2] at h ⊢
        by_cases h3 : nameMatches cand a.name = true
        · rw [if_pos h3] at h ⊢
          by_cases h4 : minP ≤ a.popularity ∧ a.popularity ≤ maxP
          · rw [if_pos h4] at h ⊢
            obtain ⟨-, htrue⟩ := ih _ _ _ h
            exact Bool.noConfusion htrue
          · rw [if_neg h4] at h ⊢
            exact ih _ _ _ h
        · rw [if_neg h3] at h ⊢
          exact ih _ _ _ h

lemma tryQueries_const (env : Env) (cand : String) (ex : Option String) (minP maxP : Nat)
    (r : Except String (List Artist)) :
    ∀ (qs : List String) (found : List Artist) (seen : List String),
      qs ≠ [] → (∀ q ∈ qs, env.search q = r) →
      tryQueries env cand ex minP maxP qs found seen
        = match r with
          | .error _ => (found, seen)
          | .ok hits => ((scanHits cand ex minP maxP hits found seen false).1,
                         (scanHits cand ex minP maxP hits found seen false).2.1) := by
  intro qs
  induction qs with
  | nil =>
    intro found seen hne _
    exact absurd rfl hne
  | cons q rest ih =>
    intro found seen _ hall
    rw [tryQueries, hall q (List.mem_cons_self q rest)]
    cases r with
    | error e =>
      dsimp only
      cases rest with
      | nil => rw [tryQueries]
      | cons q2 rest2 =>
        rw [ih _ _ (by simp) (fun x hx => hall x (List.mem_cons_of_mem q hx))]
    | ok hits =>
      dsimp only
      by_cases hm : (scanHits cand ex minP maxP hits found seen false).2.2 = true
      · rw [if_pos hm]
      · rw [if_neg hm]
        have hfalse : (scanHits cand ex minP maxP hits found seen false).2.2 = false := by
          revert hm
          cases (scanHits cand ex minP maxP hits found seen false).2.2 <;> simp
        obtain ⟨heq, -⟩ := scanHits_no_match cand ex minP maxP hits found seen false hfalse
        rw [heq]
        cases rest with
        | nil => rw [tryQueries]
        | cons q2 rest2 =>
          rw [ih _ _ (by simp) (fun x hx => hall x (List.mem_cons_of_mem q hx))]
          dsimp only
          rw [heq]

lemma tryQueries_perm_eq (env : Env) (cand : String) (ex : Option String) (minP maxP : Nat)
    (l1 l2 : List String) (hperm : l1.Perm l2)
    (hresp : ∀ q1 ∈ l1, ∀ q2 ∈ l1, env.search q1 = env.search q2) :
    ∀ (found : List Artist) (seen : List String),
      tryQueries env cand ex minP maxP l1 found seen
        = tryQueries env cand ex minP maxP l2 found seen := by
  intro found seen
  cases l1 with
  | nil =>
    rw [hperm.symm.eq_nil]
  | cons q qs =>
    have hall1 : ∀ x ∈ q :: qs, env.search x = env.search q :=
      fun x hx => hresp x hx q (List.mem_cons_self q qs)
    have hall2 : ∀ x ∈ l2, env.search x = env.search q :=
      fun x hx => hall1 x (hperm.mem_iff.mpr hx)
    have hne2 : l2 ≠ [] := by
      intro hnil
      rw [hnil] at hperm
      have := hperm.eq_nil
      exact List.noConfusion this
    rw [tryQueries_const env cand ex minP maxP (env.search q) (q :: qs) found seen
        (by simp) hall1,
       tryQueries_const env cand ex minP maxP (env.search q) l2 found seen hne2 hall2]

/-- Counterexample to C8 as stated: with the catalog responses held fixed
per query string, reversing the order of the three query variants changes
the set of records the matcher returns. -/
theorem c8_counterexample :
    searchSpotifyWith searchQueries envC8 ["Ann"] none 15 40
      ≠ searchSpotifyWith (fun n => (searchQueries n).reverse) envC8 ["Ann"] none 15 40 := by
  decide

/-- C8 amended: the matcher result does not depend on the order of the query
variants provided all variants of one candidate name receive the same
catalog response; the counterexample shows the restriction is needed when
different variants receive different responses. -/
theorem c8_variant_order (env : Env) (names : List String) (ex : Option String)
    (minP maxP : Nat) (v1 v2 : String → List String)
    (hperm : ∀ n, (v1 n).Perm (v2 n))
    (hresp : ∀ n, ∀ q1 ∈ v1 n, ∀ q2 ∈ v1 n, env.search q1 = env.search q2) :
    searchSpotifyWith v1 env names ex minP maxP
      = searchSpotifyWith v2 env names ex minP maxP := by
  unfold searchSpotifyWith
  suffices h : ∀ (ns : List String) (found : List Artist) (seen : List String),
      searchGo v1 env ex minP maxP ns found seen = searchGo v2 env ex minP maxP ns found seen by
    exact h names [] []
  intro ns
  induction ns with
  | nil =>
    intro found seen
    rfl
  | cons n rest ih =>
    intro found seen
    rw [searchGo, searchGo]
    by_cases htl : (trimStr n).length < 2
    · rw [if_pos htl, if_pos htl]
      exact ih _ _
    · rw [if_neg htl, if_neg htl]
      dsimp only
      rw [tryQueries_perm_eq env (trimStr n) ex minP maxP (v1 (trimStr n)) (v2 (trimStr n))
        (hperm _) (hresp _)]
      exact ih _ _

/-- Witness for C8 amended: the permutation and equal-response hypotheses
discharged with the reversed variant order against a catalog that answers
every query identically. -/
theorem c8_witness :
    searchSpotifyWith searchQueries envC ["Ann"] none 15 40
      = searchSpotifyWith (fun n => (searchQueries n).reverse) envC ["Ann"] none 15 40 :=
  c8_variant_order envC ["Ann"] none 15 40 searchQueries
    (fun n => (searchQueries n).reverse)
    (fun n => (List.reverse_perm (searchQueries n)).symm)
    (fun _ q1 _ q2 _ => rfl)

/-! The batch-runner mapping: one entry per key, last write wins. -/

lemma upsert_keys (m : List (String × NicheEntry)) (k : String) (v : NicheEntry) :
    (upsert m k v).map Prod.fst
      = if m.any (fun p => p.1 == k) then m.map Prod.fst
        else m.map Prod.fst ++ [k] := by
  unfold upsert
  split
  · rw [List.map_map]
    refine List.map_congr_left (fun p _ => ?_)
    by_cases hp : (p.1 == k) = true
    · simp only [Function.comp_apply, if_pos hp]
      exact (eq_of_beq hp).symm
    · simp only [Function.comp_apply, if_neg hp]
  · rw [List.map_append]
    rfl

lemma upsert_keys_nodup (m : List (String × NicheEntry)) (k : String) (v : NicheEntry)
    (h : (m.map Prod.fst).Nodup) : ((upsert m k v).map Prod.fst).Nodup := by
  rw [upsert_keys]
  split
  · exact h
  next hany =>
    have hk : k ∉ m.map Prod.fst := by
      intro hc
      rcases List.mem_map.mp hc with ⟨p, hp, hpk⟩
      exact hany (List.any_eq_true.mpr ⟨p, hp, by simp [hpk]⟩)
    refine List.Nodup.append h (List.nodup_singleton k) ?_
    intro x hx hx'
    rcases List.mem_singleton.mp hx' with rfl
    exact hk hx

lemma find?_map_rewrite (k : String) (v : NicheEntry) :
    ∀ m : List (String × NicheEntry),
      (m.map (fun p => if p.1 == k then (k, v) else p)).find? (fun p => p.1 == k)
        = if m.any (fun p => p.1 == k) then some (k, v) else none := by
  intro m
  induction m with
  | nil => rfl
  | cons p rest ih =>
    rw [List.map_cons, List.any_cons]
    by_cases hp : (p.1 == k) = true
    · rw [if_pos hp]
      rw [@List.find?_cons_of_pos _ (fun q => q.1 == k) (k, v) _ (by simp)]
      simp [hp]
    · have hp' : (p.1 == k) = false := by
        revert hp
        cases (p.1 == k) <;> simp
      rw [if_neg hp, @List.find?_cons_of_neg _ (fun q => q.1 == k) p _ hp, ih, hp',
        Bool.false_or]

lemma find?_map_ne (k k' : String) (v : NicheEntry) (hk : k' ≠ k) :
    ∀ m : List (String × NicheEntry),
      (m.map (fun p => if p.1 == k then (k, v) else p)).find? (fun p => p.1 == k')
        = m.find? (fun p => p.1 == k') := by
  intro m
  induction m with
  | nil => rfl
  | cons p rest ih =>
    rw [List.map_cons]
    by_cases hp : (p.1 == k) = true
    · rw [if_pos hp]
      have h1 : ¬(((k, v) : String × NicheEntry).1 == k') = true := by
        simp
        exact Ne.symm hk
      have h2 : ¬(p.1 == k') = true := by
        simp
        rw [eq_of_beq hp]
        exact Ne.symm hk
      rw [@List.find?_cons_of_neg _ (fun q => q.1 == k') (k, v) _ h1,
        @List.find?_cons_of_neg _ (fun q => q.1 == k') p _ h2, ih]
    · rw [if_neg hp]
      by_cases hp' : (p.1 == k') = true
      · rw [@List.find?_cons_of_pos _ (fun q => q.1 == k') p _ hp',
          @List.find?_cons_of_pos _ (fun q => q.1 == k') p _ hp']
      · rw [@List.find?_cons_of_neg _ (fun q => q.1 == k') p _ hp',
          @List.find?_cons_of_neg _ (fun q => q.1 == k') p _ hp', ih]

lemma lookupKey_upsert_self (m : List (String × NicheEntry)) (k : String) (v : NicheEntry) :
    lookupKey (upsert m k v) k = some v := by
  unfold upsert lookupKey
  split
  next hany =>
    rw [find?_map_rewrite k v m, if_pos hany]
    rfl
  next hany =>
    have hnone : m.find? (fun p => p.1 == k) = none :=
      List.find?_eq_none.mpr (fun p hp hpk => hany (List.any_eq_true.mpr ⟨p, hp, hpk⟩))
    rw [List.find?_append, hnone, Option.none_or,
      @List.find?_cons_of_pos _ (fun q => q.1 == k) (k, v) _ (by simp)]
    rfl

lemma lookupKey_upsert_ne (m : List (String × NicheEntry)) (k k' : String) (v : NicheEntry)
    (hk : k' ≠ k) : lookupKey (upsert m k v) k' = lookupKey m k' := by
  unfold upsert lookupKey
  split
  · rw [find?_map_ne k k' v hk m]
  · have h1 : ¬(((k, v) : String × NicheEntry).1 == k') = true := by
      simp
      exact Ne.symm hk
    rw [List.find?_append, @List.find?_cons_of_neg _ (fun q => q.1 == k') (k, v) _ h1]
    rw [show (List.find? (fun p => p.1 == k') ([] : List (String × NicheEntry))) = none from rfl]
    rw [Option.or_none]

lemma foldAssign_cons (m : List (String × NicheEntry)) (a : String × NicheEntry)
    (t : List (String × NicheEntry)) :
    foldAssign m (a :: t) = foldAssign (upsert m a.1 a.2) t := rfl

lemma foldAssign_keys_nodup :
    ∀ (l m : List (String × NicheEntry)), (m.map Prod.fst).Nodup →
      ((foldAssign m l).map Prod.fst).Nodup := by
  intro l
  induction l with
  | nil => intro m h; exact h
  | cons a t ih =>
    intro m h
    rw [foldAssign_cons]
    exact ih _ (upsert_keys_nodup m a.1 a.2 h)

lemma foldAssign_lookup :
    ∀ (l m : List (String × NicheEntry)) (k : String),
      lookupKey (foldAssign m l) k
        = match l.reverse.find? (fun p => p.1 == k) with
          | some p => some p.2
          | none => lookupKey m k := by
  intro l
  induction l with
  | nil =>
    intro m k
    rfl
  | cons a t ih =>
    intro m k
    rw [foldAssign_cons, ih, List.reverse_cons, List.find?_append]
    cases hf : t.reverse.find? (fun p => p.1 == k) with
    | some p => rw [Option.or_some]
    | none =>
      rw [Option.none_or]
      by_cases ha : (a.1 == k) = true
      · rw [@List.find?_cons_of_pos _ (fun q => q.1 == k) a _ ha]
        have hak : a.1 = k := eq_of_beq ha
        rw [← hak]
        exact lookupKey_upsert_self m a.1 a.2
      · rw [@List.find?_cons_of_neg _ (fun q => q.1 == k) a _ ha]
        have hne : k ≠ a.1 := by
          intro hc
          exact ha (by simp [hc])
        exact lookupKey_upsert_ne m a.1 k a.2 hne

lemma recGo_ok (env : Env) (token : String) (maxPop minPop : Nat) :
    ∀ (tops : List Artist) (m m' : List (String × NicheEntry)),
      recGo env token maxPop minPop tops m = .ok m' →
      m' = foldAssign m (batchAssignments env token maxPop minPop tops) := by
  intro tops
  induction tops with
  | nil =>
    intro m m' h
    injection h with h
    exact h.symm
  | cons artist rest ih =>
    intro m m' h
    rw [recGo] at h
    cases hfa : (find_niche_cousins env artist.id token maxPop 0 3 minPop false).res with
    | error e =>
      rw [hfa] at h
      exact absurd h (by simp)
    | ok niches =>
      rw [hfa] at h
      dsimp only at h
      have hmerge : niches.foldl (fun acc n => upsert acc n.id ⟨n, artist⟩) m
          = foldAssign m (niches.map (fun n => (n.id, (⟨n, artist⟩ : NicheEntry)))) := by
        unfold foldAssign
        rw [List.foldl_map]
      have hbatch : batchAssignments env token maxPop minPop (artist :: rest)
          = (niches.map (fun n => (n.id, (⟨n, artist⟩ : NicheEntry))))
            ++ batchAssignments env token maxPop minPop rest := by
        unfold batchAssignments nichesOf
        rw [List.flatMap_cons, hfa]
      rw [ih _ _ h, hmerge, hbatch]
      unfold foldAssign
      rw [List.foldl_append]

/-- C9: for every successful run of recommend_niche_for_top_artists the
returned mapping has pairwise distinct niche identifiers (exactly one entry
per identifier), and the entry stored under an identifier is the assignment
of the last seed, in processing order, that surfaced this identifier: when
two seeds surface the same niche artist, the later seed wins. -/
theorem c9_last_write_wins (env : Env) (token : String) (maxPop minPop : Nat)
    (tops : List Artist) (m : List (String × NicheEntry))
    (hT : env.userTopArtists = .ok tops)
    (hm : recommend_niche_for_top_artists env token maxPop minPop = .ok m) :
    (m.map Prod.fst).Nodup ∧
    ∀ k, lookupKey m k
      = ((batchAssignments env token maxPop minPop tops).reverse.find?
          (fun p => p.1 == k)).map Prod.snd := by
  unfold recommend_niche_for_top_artists at hm
  rw [hT] at hm
  dsimp only at hm
  have hm' := recGo_ok env token maxPop minPop tops [] m hm
  constructor
  · rw [hm']
    exact foldAssign_keys_nodup _ [] (by simp)
  · intro k
    rw [hm', foldAssign_lookup]
    cases (batchAssignments env token maxPop minPop tops).reverse.find?
        (fun p => p.1 == k) with
    | some p => rfl
    | none => rfl

/-- Witness for C9: the top-artists and success hypotheses discharged on a
run with no top artists. -/
theorem c9_witness :
    (([] : List (String × NicheEntry)).map Prod.fst).Nodup ∧
    lookupKey [] "x"
      = ((batchAssignments envE "t" 20 5 []).reverse.find?
          (fun p => p.1 == "x")).map Prod.snd := by
  have h := c9_last_write_wins envE "t" 20 5 [] [] rfl rfl
  exact ⟨h.1, h.2 "x"⟩

end Nichefy
